import Mathlib

/-!
Verification of the AutoPkg Recipe Finder
(`get-autopkg-recipe/find-autopkg-recipe.py`), a shallow embedding of the
recipe resolution and retrieval engine: candidate selection
(`find_best_recipe`), parent extraction (`get_parent_recipes`), the
download chain (`_download_recipe_chain`, `download_recipe_file`), the
search retry loop (`search_autopkg_web`), and the per-application batch
driver (`process_application` / `process_applications`) with its run
statistics.

Strings are modelled as Lean `String`s (the scripts only handle ASCII
recipe identifiers and URLs); the file system beneath the output root is
an association list from path to content; the network (the autopkgweb
catalog and the raw-file host) is an explicit environment of oracles, with
`Except String` marking a Python exception escaping a call.
-/

namespace AutoPkg

/-- Recipe dataclass (find-autopkg-recipe.py lines 55-66).  Note the
parsed record carries no popularity/star field: its fields are exactly the
five table cells of an autopkgweb result row plus the lexical
`deprecated` flag. -/
structure Recipe where
  name : String
  type : String
  description : String
  repo : String
  repo_url : String
  recipe_file : String
  recipe_file_url : String
  deprecated : Bool
deriving DecidableEq, Repr

/-- Configuration constant RECIPE_TYPES_PRIORITY (line 26). -/
def RECIPE_TYPES_PRIORITY : List String := ["munki", "download"]

/-- Configuration constant RECIPE_SUFFIXES (line 27). -/
def RECIPE_SUFFIXES : List String := [".download", ".munki", ".pkg", ".install", ".jss", ".jamf"]

/-- Configuration constant MAX_RETRIES (line 30). -/
def MAX_RETRIES : Nat := 3

/-- Configuration constant RETRY_DELAY (line 31), in seconds. -/
def RETRY_DELAY : Nat := 2

/-- Python whitespace class (`\s` of the `re` module and `str.strip()`),
restricted to ASCII: space, tab, newline, carriage return, vertical tab,
form feed. -/
def isPySpace (c : Char) : Bool :=
  c == ' ' || c == '\t' || c == '\n' || c == '\r' || c == '\x0b' || c == '\x0c'

/-- Python `str.strip(chars)`: drop the characters satisfying `p` from
both ends of the list. -/
def stripChars (p : Char → Bool) (l : List Char) : List Char :=
  ((l.dropWhile p).reverse.dropWhile p).reverse

/-- Python `str.replace(pat, rep)` on character lists (all non-overlapping
occurrences, left to right).  The fuel argument is the length of the
subject string: each step consumes at least one character, so the
out-of-fuel branch is never reached when called through `pyReplace`. -/
def replaceCharsAux (pat rep : List Char) : Nat → List Char → List Char
  | _, [] => []
  | 0, s => s
  | fuel + 1, c :: rest =>
    if pat ≠ [] && pat.isPrefixOf (c :: rest) then
      rep ++ replaceCharsAux pat rep fuel ((c :: rest).drop pat.length)
    else
      c :: replaceCharsAux pat rep fuel rest

/-- Python `str.replace` on `String` (used by `download_recipe_file` to
turn a github URL into a raw.githubusercontent URL, line 558). -/
def pyReplace (s pat rep : String) : String :=
  String.mk (replaceCharsAux pat.data rep.data s.data.length s.data)

/-- AutoPkgRecipeFinder.sanitize_name (lines 488-490): replace the
characters `<>:"/\|?*` by underscores. -/
def sanitize_name (name : String) : String :=
  String.mk (name.data.map fun c =>
    if c == '<' || c == '>' || c == ':' || c == '"' || c == '/' ||
       c == '\\' || c == '|' || c == '?' || c == '*' then '_' else c)

/-- Helper for `strip_recipe_suffix`: first suffix of the list that the
name ends with is removed (Python `name[:-len(suffix)]`). -/
def stripSuffixAux (name : List Char) : List String → List Char
  | [] => name
  | s :: rest =>
    if s.data.isSuffixOf name then name.take (name.length - s.data.length)
    else stripSuffixAux name rest

/-- AutoPkgRecipeFinder.strip_recipe_suffix (lines 492-497). -/
def strip_recipe_suffix (name : String) : String :=
  String.mk (stripSuffixAux name.data RECIPE_SUFFIXES)

/-- Match of the regex `<key>ParentRecipe</key>\s*<string>([^<]+)</string>`
anchored at the head of `l`, returning the group (get_parent_recipes,
line 583).  `[^<]+` can never backtrack past a `<`, and `\s*` is followed
by `<`, so maximal munch is exact here. -/
def plistMatchAt (l : List Char) : Option (List Char) :=
  let key := "<key>ParentRecipe</key>".data
  if key.isPrefixOf l then
    let r1 := (l.drop key.length).dropWhile isPySpace
    let stag := "<string>".data
    if stag.isPrefixOf r1 then
      let r2 := r1.drop stag.length
      let body := r2.takeWhile (fun c => c != '<')
      if body ≠ [] && "</string>".data.isPrefixOf (r2.drop body.length) then
        some body
      else none
    else none
  else none

/-- Backtracking of `\s*([^\n]+)` at end of pattern: `k` is the candidate
length of the `\s*` part (starting from the maximal whitespace run and
shrinking), and the group is the maximal newline-free run that follows;
the first `k` whose following character exists and is not a newline
wins, matching Python regex backtracking order. -/
def yamlBack (rest : List Char) : Nat → Option (List Char)
  | 0 =>
    match rest.head? with
    | some c => if c != '\n' then some (rest.takeWhile (fun c => c != '\n')) else none
    | none => none
  | k + 1 =>
    match rest.get? (k + 1) with
    | some c =>
      if c != '\n' then some ((rest.drop (k + 1)).takeWhile (fun c => c != '\n'))
      else yamlBack rest k
    | none => yamlBack rest k

/-- Match of the regex `ParentRecipe:\s*([^\n]+)` anchored at the head of
`l`, returning the raw group (get_parent_recipes, line 586). -/
def yamlMatchAt (l : List Char) : Option (List Char) :=
  let key := "ParentRecipe:".data
  if key.isPrefixOf l then
    let rest := l.drop key.length
    yamlBack rest (rest.takeWhile isPySpace).length
  else none

/-- Semantics of `re.search`: try the anchored matcher at every position,
left to right, and return the first group found. -/
def searchFirst (f : List Char → Option (List Char)) : List Char → Option (List Char)
  | [] => f []
  | c :: rest =>
    match f (c :: rest) with
    | some g => some g
    | none => searchFirst f rest

/-- AutoPkgRecipeFinder.get_parent_recipes (lines 579-590): one optional
entry from the plist pattern (group appended verbatim) and one optional
entry from the YAML pattern (group stripped of whitespace, then of double
quotes, then of single quotes), in that order. -/
def get_parent_recipes (content : String) : List String :=
  let cs := content.data
  let fromPlist :=
    match searchFirst plistMatchAt cs with
    | some g => [String.mk g]
    | none => []
  match searchFirst yamlMatchAt cs with
  | some g =>
      fromPlist ++
        [String.mk (stripChars (fun c => c == '\x27')
          (stripChars (fun c => c == '"') (stripChars isPySpace g)))]
  | none => fromPlist

/-- Network environment of AutoPkgRecipeFinder.  `search` is the observable
behaviour of `search_autopkg_web(query, type_filter)` (retries already
absorbed: it returns the parsed list, `[]` on retry exhaustion, or raises
an unexpected exception, modelled as `.error`); `fetch` is the raw-file
host consumed by `download_recipe_file` (`some text` when a GET of the raw
URL eventually succeeds within its retries, `none` when all attempts
fail — that function catches every exception itself, line 571). -/
structure Env where
  search : String → String → Except String (List Recipe)
  fetch : String → Option String

/-- Loop body of AutoPkgRecipeFinder.find_best_recipe (lines 592-602) over
an explicit priority list: for each type, search, drop deprecated
candidates, and return the first survivor (`valid_recipes[0]`). -/
def findBestAux (env : Env) (app_name : String) : List String → Except String (Option Recipe)
  | [] => .ok none
  | recipe_type :: rest =>
    match env.search app_name recipe_type with
    | .error e => .error e
    | .ok recipes =>
      match recipes.filter (fun r => !r.deprecated) with
      | [] => findBestAux env app_name rest
      | r :: _ => .ok (some r)

/-- AutoPkgRecipeFinder.find_best_recipe (lines 592-602), walking the
global RECIPE_TYPES_PRIORITY. -/
def find_best_recipe (env : Env) (app_name : String) : Except String (Option Recipe) :=
  findBestAux env app_name RECIPE_TYPES_PRIORITY

/-- Modelled from the spec: the catalog search collaborator (spec section 6)
is outside src/ — it is "assumed to support filtering by type", so a
catalog holding a fixed candidate list answers a query by filtering on the
`recipe_type` badge and never raises. -/
def catalogEnv (catalog : List Recipe) (fetch : String → Option String) : Env :=
  { search := fun _app t => .ok (catalog.filter (fun r => r.type == t))
    fetch := fetch }

/-- Decidable equality for `Except`, so that concrete runs of the
embedded operations can be checked by `decide`. -/
instance instDecEqExcept {e a : Type} [DecidableEq e] [DecidableEq a] :
    DecidableEq (Except e a) := fun x y =>
  match x, y with
  | .ok v, .ok w =>
    if h : v = w then .isTrue (by rw [h]) else .isFalse (fun hh => h (by cases hh; rfl))
  | .error v, .error w =>
    if h : v = w then .isTrue (by rw [h]) else .isFalse (fun hh => h (by cases hh; rfl))
  | .ok _, .error _ => .isFalse (fun hh => by cases hh)
  | .error _, .ok _ => .isFalse (fun hh => by cases hh)

/-- File tree beneath the output root: an association list from path to
file content (first entry with a given path is the file). -/
def FS : Type := List (String × String)

/-- Decidable equality on the file-tree model. -/
instance : DecidableEq FS := fun a b => List.hasDecEq a b

/-- Empty file tree. -/
def emptyFS : FS := []

/-- Pathlib `write_text`: replace the content of the first entry at the
path, or create the file at the end of the tree. -/
def writeText : FS → String → String → FS
  | [], path, content => [(path, content)]
  | kv :: rest, path, content =>
    if kv.1 == path then (path, content) :: rest
    else kv :: writeText rest path content

/-- Pathlib `read_text`: content at the path, if the file exists. -/
def readFS : FS → String → Option String
  | [], _ => none
  | kv :: rest, path => if kv.1 == path then some kv.2 else readFS rest path

/-- URL rewrite of download_recipe_file (line 558):
`url.replace('github.com', 'raw.githubusercontent.com').replace('/blob/', '/')`. -/
def rawUrl (url : String) : String :=
  pyReplace (pyReplace url "github.com" "raw.githubusercontent.com") "/blob/" "/"

/-- AutoPkgRecipeFinder.download_recipe_file (lines 556-577): GET the raw
URL (retries and all exceptions are absorbed inside the function,
abstracted by `Env.fetch`); on success write the body at `output_path`
unconditionally (`output_path.write_text`, line 566) and return True, on
exhaustion return False leaving the tree unchanged. -/
def download_recipe_file (env : Env) (fs : FS) (url : String) (output_path : String) :
    Bool × FS :=
  match env.fetch (rawUrl url) with
  | some text => (true, writeText fs output_path text)
  | none => (false, fs)

/-- Directory segments of the path a recipe is persisted under
(_download_recipe_chain, lines 678-680 and 693-695):
`output_dir / com.github.autopkg.<repo> / sanitized stripped name / recipe_file`. -/
def recipePath (output_dir : String) (r : Recipe) : String :=
  output_dir ++ "/" ++ ("com.github.autopkg." ++ r.repo) ++ "/" ++
    sanitize_name (strip_recipe_suffix r.name) ++ "/" ++ r.recipe_file

/-- Path of a persisted recipe relative to the output root
(`recipe_path.relative_to(self.output_dir)`, lines 684 and 699). -/
def relPath (r : Recipe) : String :=
  ("com.github.autopkg." ++ r.repo) ++ "/" ++
    sanitize_name (strip_recipe_suffix r.name) ++ "/" ++ r.recipe_file

/-- Parent loop of _download_recipe_chain (lines 687-699): for each
extracted parent name, search the catalog with no type filter and, when
there is at least one hit, download the first one; a failed download or an
empty search just moves to the next name.  A raised exception from the
search aborts the walk (`.error`), keeping the files already written. -/
def downloadParentsAux (env : Env) (output_dir : String) :
    List String → List String × List String × FS →
    Except String (List String × List String) × FS
  | [], (files, paths, fs) => (.ok (files, paths), fs)
  | parent_name :: rest, (files, paths, fs) =>
    match env.search parent_name "" with
    | .error e => (.error e, fs)
    | .ok [] => downloadParentsAux env output_dir rest (files, paths, fs)
    | .ok (parent :: _) =>
      match download_recipe_file env fs parent.recipe_file_url (recipePath output_dir parent) with
      | (true, fs1) =>
        downloadParentsAux env output_dir rest
          (files ++ [parent.recipe_file], paths ++ [relPath parent], fs1)
      | (false, fs1) => downloadParentsAux env output_dir rest (files, paths, fs1)

/-- AutoPkgRecipeFinder._download_recipe_chain (lines 673-701): download
the root; when that succeeds, read the persisted content back, extract the
parent names and run the parent loop; when it fails, return empty lists.
The final file tree is returned alongside, and `.error` carries an
unexpected exception escaping a parent search. -/
def download_recipe_chain (env : Env) (output_dir : String) (fs : FS) (recipe : Recipe) :
    Except String (List String × List String) × FS :=
  let recipe_path := recipePath output_dir recipe
  match download_recipe_file env fs recipe.recipe_file_url recipe_path with
  | (false, fs1) => (.ok ([], []), fs1)
  | (true, fs1) =>
    let content := (readFS fs1 recipe_path).getD ""
    downloadParentsAux env output_dir (get_parent_recipes content)
      ([recipe.recipe_file], [relPath recipe], fs1)

/-- Retry loop of AutoPkgRecipeFinder.search_autopkg_web (lines 508-521):
`tryGet n` is the outcome of the `session.get` of attempt `n` (zero
based, `.error` a requests exception), `fuel` the remaining iterations of
`for attempt in range(MAX_RETRIES)`.  Returns the parsed result list, the
number of attempts made, and the list of sleeps performed between
attempts. -/
def searchRetryAux (tryGet : Nat → Except String String) (parse : String → List Recipe) :
    Nat → Nat → List Nat → List Recipe × Nat × List Nat
  | 0, attempt, sleeps => ([], attempt, sleeps)
  | fuel + 1, attempt, sleeps =>
    match tryGet attempt with
    | .ok html => (parse html, attempt + 1, sleeps)
    | .error _ =>
      if attempt < MAX_RETRIES - 1 then
        searchRetryAux tryGet parse fuel (attempt + 1) (sleeps ++ [RETRY_DELAY])
      else ([], attempt + 1, sleeps)

/-- AutoPkgRecipeFinder.search_autopkg_web (lines 499-521): up to
MAX_RETRIES attempts, a sleep of RETRY_DELAY between consecutive
attempts, parse on first success, and an empty list (not an exception)
when every attempt fails.  `parse` abstracts `_parse_search_results`. -/
def search_autopkg_web (tryGet : Nat → Except String String) (parse : String → List Recipe) :
    List Recipe × Nat × List Nat :=
  searchRetryAux tryGet parse MAX_RETRIES 0 []

/-- Run statistics dictionary of AutoPkgRecipeFinder.__init__
(lines 481-486). -/
structure Stats where
  total : Nat
  found : Nat
  downloaded : Nat
  errors : Nat
deriving DecidableEq, Repr

/-- Initial statistics: every counter zero (lines 481-486). -/
def initStats : Stats := ⟨0, 0, 0, 0⟩

/-- ProcessingResult dataclass (lines 67-78). -/
structure ProcessingResult where
  application : String
  recipe_name : String
  recipe_type : String
  repo : String
  found : Bool
  downloaded : Bool
  downloaded_files : List String
  local_paths : List String
  error : Option String
deriving DecidableEq, Repr

/-- Result row for a row without an application name (lines 608-619). -/
def unknownResult : ProcessingResult :=
  { application := "Unknown", recipe_name := "Not Found", recipe_type := "N/A", repo := "N/A"
    found := false, downloaded := false, downloaded_files := [], local_paths := []
    error := some "No application name provided" }

/-- Result row when no recipe was found (lines 629-638). -/
def notFoundResult (app_name : String) : ProcessingResult :=
  { application := app_name, recipe_name := "Not Found", recipe_type := "N/A", repo := "N/A"
    found := false, downloaded := false, downloaded_files := [], local_paths := []
    error := none }

/-- Result row when an unexpected exception was caught at the application
boundary (lines 658-671). -/
def errorResult (app_name e : String) : ProcessingResult :=
  { application := app_name, recipe_name := "Error", recipe_type := "N/A", repo := "N/A"
    found := false, downloaded := false, downloaded_files := [], local_paths := []
    error := some e }

/-- AutoPkgRecipeFinder.process_application (lines 604-671): guard on the
application name, count it in `total`, then a try block running
`find_best_recipe` and `_download_recipe_chain`; `found` is bumped once a
recipe is selected, `downloaded` once the chain persisted at least one
file, and any exception is caught, bumps `errors` and yields an error row
(the file writes performed before the exception remain).  The row passed
on by `process_applications` is modelled by the ProcessingResult fields it
is updated with (lines 713-722). -/
def process_application (env : Env) (output_dir : String) (app_name : String)
    (stats : Stats) (fs : FS) : ProcessingResult × Stats × FS :=
  if app_name = "" then (unknownResult, stats, fs)
  else
    let stats1 := { stats with total := stats.total + 1 }
    match find_best_recipe env app_name with
    | .error e => (errorResult app_name e, { stats1 with errors := stats1.errors + 1 }, fs)
    | .ok none => (notFoundResult app_name, stats1, fs)
    | .ok (some recipe) =>
      let stats2 := { stats1 with found := stats1.found + 1 }
      match download_recipe_chain env output_dir fs recipe with
      | (.error e, fs1) => (errorResult app_name e, { stats2 with errors := stats2.errors + 1 }, fs1)
      | (.ok (downloaded_files, local_paths), fs1) =>
        let stats3 :=
          if downloaded_files.isEmpty then stats2
          else { stats2 with downloaded := stats2.downloaded + 1 }
        ({ application := app_name, recipe_name := recipe.name, recipe_type := recipe.type
           repo := recipe.repo, found := true, downloaded := !downloaded_files.isEmpty
           downloaded_files := downloaded_files, local_paths := local_paths, error := none },
         stats3, fs1)

/-- AutoPkgRecipeFinder.process_applications (lines 703-728): fold the
applications in order, threading the statistics and the file tree, and
collect one result row per input row. -/
def process_applications (env : Env) (output_dir : String) :
    List String → Stats → FS → List ProcessingResult × Stats × FS
  | [], stats, fs => ([], stats, fs)
  | app :: rest, stats, fs =>
    let out := process_application env output_dir app stats fs
    let outRest := process_applications env output_dir rest out.2.1 out.2.2
    (out.1 :: outRest.1, outRest.2)

/-- Chronological checkpoints of `self.stats` while `process_application`
runs one application: after the `total` bump, after the `found` bump,
and after the `downloaded` or `errors` bump, mirroring the mutation
points at lines 622, 640, 645 and 660. -/
def appStatsTrace (env : Env) (output_dir : String) (app_name : String)
    (stats : Stats) (fs : FS) : List Stats :=
  if app_name = "" then []
  else
    let stats1 := { stats with total := stats.total + 1 }
    match find_best_recipe env app_name with
    | .error _ => [stats1, { stats1 with errors := stats1.errors + 1 }]
    | .ok none => [stats1]
    | .ok (some recipe) =>
      let stats2 := { stats1 with found := stats1.found + 1 }
      match download_recipe_chain env output_dir fs recipe with
      | (.error _, _) => [stats1, stats2, { stats2 with errors := stats2.errors + 1 }]
      | (.ok (downloaded_files, _), _) =>
        if downloaded_files.isEmpty then [stats1, stats2]
        else [stats1, stats2, { stats2 with downloaded := stats2.downloaded + 1 }]

/-- Chronological checkpoints of `self.stats` over a whole batch run. -/
def batchStatsTrace (env : Env) (output_dir : String) :
    List String → Stats → FS → List Stats
  | [], _, _ => []
  | app :: rest, stats, fs =>
    let out := process_application env output_dir app stats fs
    appStatsTrace env output_dir app stats fs ++
      batchStatsTrace env output_dir rest out.2.1 out.2.2

/-- Counter invariant of the run statistics:
`downloaded ≤ found ≤ total`. -/
def statsInv (s : Stats) : Prop := s.downloaded ≤ s.found ∧ s.found ≤ s.total

/-- Decidability of the counter invariant, for concrete witnesses. -/
instance (s : Stats) : Decidable (statsInv s) := by
  unfold statsInv; infer_instance

/-- Modelled from the spec: the popularity signal ("non-negative integer
(e.g., star count)", spec section 3) attached to candidates.  The parsed
`Recipe` record of the source (lines 55-66) carries no such field and
`find_best_recipe` never reads one, so popularity lives outside the code:
this is one admissible assignment of star counts, used to test the
spec's ranking statements against the code. -/
def popularity (r : Recipe) : Nat :=
  if r.name == "FooMax.munki.recipe" then 50 else 5

/-- Candidate of the first-priority type appearing first in catalog
order, with the lower popularity. -/
def c3A : Recipe :=
  ⟨"Foo.munki.recipe", "munki", "", "repoA", "", "Foo.munki.recipe", "uA", false⟩

/-- Candidate of the same type appearing second, with the higher
popularity. -/
def c3B : Recipe :=
  ⟨"FooMax.munki.recipe", "munki", "", "repoB", "", "FooMax.munki.recipe", "uB", false⟩

/-- Two-candidate catalog used for the selection claims. -/
def c3catalog : List Recipe := [c3A, c3B]

/-- Selection environment over `c3catalog` (no files are fetched). -/
def c3env : Env := catalogEnv c3catalog (fun _ => none)

/-- Root recipe of the three-level ancestry fixture. -/
def c6R : Recipe :=
  ⟨"R.munki.recipe", "munki", "", "repoR", "", "R.munki.recipe", "uR", false⟩

/-- Direct parent of `c6R`. -/
def c6P : Recipe :=
  ⟨"P.munki.recipe", "munki", "", "repoP", "", "P.munki.recipe", "uP", false⟩

/-- Grandparent of `c6R` (parent of `c6P`), itself resolvable. -/
def c6G : Recipe :=
  ⟨"G.munki.recipe", "munki", "", "repoG", "", "G.munki.recipe", "uG", false⟩

/-- Content of the root's recipe file: names `P.munki` as parent. -/
def c6contentR : String := "<key>ParentRecipe</key><string>P.munki</string>"

/-- Content of the parent's recipe file: names `G.munki` as parent. -/
def c6contentP : String := "<key>ParentRecipe</key><string>G.munki</string>"

/-- Environment in which root, parent and grandparent all resolve and
fetch successfully. -/
def c6env : Env :=
  { search := fun name _t =>
      if name == "P.munki" then .ok [c6P]
      else if name == "G.munki" then .ok [c6G]
      else .ok []
    fetch := fun url =>
      if url == "uR" then some c6contentR
      else if url == "uP" then some c6contentP
      else if url == "uG" then some "terminal recipe, no parent"
      else none }

/-- Root recipe whose own file names itself (via its identifier
`Foo.munki`) as parent: a self-cycle in the parent graph. -/
def c7R : Recipe :=
  ⟨"Foo.munki.recipe", "munki", "", "repo7", "", "Foo.munki.recipe", "u7", false⟩

/-- Content of the self-referencing recipe file. -/
def c7content : String := "<key>ParentRecipe</key><string>Foo.munki</string>"

/-- Environment in which the parent lookup for `Foo.munki` resolves back
to the already-fetched root. -/
def c7env : Env :=
  { search := fun name _t => if name == "Foo.munki" then .ok [c7R] else .ok []
    fetch := fun url => if url == "u7" then some c7content else none }

/-- Path of a file that already exists before the colliding download. -/
def c8path : String := "out/com.github.autopkg.r/App/App.munki.recipe"

/-- File tree already holding content at `c8path`. -/
def c8fs : FS := [(c8path, "old contents")]

/-- Environment whose fetch succeeds with fresh content for the
colliding URL. -/
def c8env : Env :=
  { search := fun _ _ => .ok []
    fetch := fun url => if url == "u8" then some "new contents" else none }

/-- Recipe returned for the application "Good" in the batch fixture. -/
def goodRecipe : Recipe :=
  ⟨"Good.munki.recipe", "munki", "", "repoGood", "", "Good.munki.recipe", "uGood", false⟩

/-- Batch environment: the application "Boom" raises an unexpected
exception inside the search, "Good" resolves and downloads, anything else
is not found. -/
def env4 : Env :=
  { search := fun name t =>
      if name == "Boom" then .error "kaboom"
      else if name == "Good" && t == "munki" then .ok [goodRecipe]
      else .ok []
    fetch := fun url => if url == "uGood" then some "plain content" else none }

/-- Attempt oracle on which every network attempt raises a requests
exception. -/
def tg5 : Nat → Except String String := fun _ => .error "connection reset"

/-- Trivial result parse used with `tg5` (never reached on exhaustion). -/
def p5 : String → List Recipe := fun _ => []

/-- Recipe content that matches both parent patterns of
`get_parent_recipes` at once: plist form naming `A`, YAML form naming
`B`. -/
def c9content : String := "<key>ParentRecipe</key><string>A</string>\nParentRecipe: B"

/-- Environment whose every fetch yields a recipe file with no parent
reference, and whose searches find nothing. -/
def wEnvNP : Env :=
  { search := fun _ _ => .ok [], fetch := fun _ => some "plain" }

/-- Head of a filtered list is its first element satisfying the
predicate: there is a position holding it, and every earlier position
fails the predicate. -/
theorem head_filter_first {α : Type} (p : α → Bool) :
    ∀ (l : List α) (r : α), (l.filter p).head? = some r →
      ∃ i : Nat, l[i]? = some r ∧ p r = true ∧
        ∀ j : Nat, j < i → ∀ c, l[j]? = some c → p c = false := by
  intro l
  induction l with
  | nil => intro r h; simp at h
  | cons a as ih =>
    intro r h
    by_cases pa : p a = true
    · rw [List.filter_cons_of_pos pa] at h
      simp only [List.head?_cons, Option.some.injEq] at h
      subst h
      refine ⟨0, by simp, pa, ?_⟩
      intro j hj cc _
      exact absurd hj (Nat.not_lt_zero j)
    · have pa' : p a = false := by simpa using pa
      rw [List.filter_cons_of_neg (by simpa using pa)] at h
      obtain ⟨i, hi, hr, hprev⟩ := ih r h
      refine ⟨i + 1, by simpa using hi, hr, ?_⟩
      intro j hj cc hc
      cases j with
      | zero =>
        simp only [List.getElem?_cons_zero, Option.some.injEq] at hc
        subst hc
        exact pa'
      | succ k =>
        simp only [List.getElem?_cons_succ] at hc
        exact hprev k (by omega) cc hc

/-- C1 (confirmed): type priority beats popularity.  For every candidate
list, every type-priority sequence and the catalog collaborator filtering
by type, if a non-deprecated candidate of the first-priority type exists,
`find_best_recipe`'s walk returns a candidate of exactly that type —
independently of any popularity of lower-priority candidates, which the
code never reads. -/
theorem C1_type_priority_beats_popularity (catalog : List Recipe)
    (fetch : String → Option String) (app t : String) (rest : List String)
    (hex : ∃ r ∈ catalog, r.type = t ∧ r.deprecated = false) :
    ∃ r, findBestAux (catalogEnv catalog fetch) app (t :: rest) = .ok (some r) ∧
      r.type = t := by
  obtain ⟨r, hr, hty, hdep⟩ := hex
  have hmem1 : r ∈ catalog.filter (fun r => r.type == t) :=
    List.mem_filter.mpr ⟨hr, by simp [hty]⟩
  have hmem2 : r ∈ (catalog.filter (fun r => r.type == t)).filter (fun r => !r.deprecated) :=
    List.mem_filter.mpr ⟨hmem1, by simp [hdep]⟩
  cases hl : (catalog.filter (fun r => r.type == t)).filter (fun r => !r.deprecated) with
  | nil => rw [hl] at hmem2; cases hmem2
  | cons a as =>
    have ha : a ∈ (catalog.filter (fun r => r.type == t)).filter (fun r => !r.deprecated) := by
      rw [hl]; exact List.mem_cons_self a as
    have ha2 : a ∈ catalog.filter (fun r => r.type == t) := List.mem_of_mem_filter ha
    have haty : (a.type == t) = true := (List.mem_filter.mp ha2).2
    refine ⟨a, ?_, by simpa using haty⟩
    simp only [findBestAux, catalogEnv]
    rw [hl]

/-- C2 (confirmed): deprecation exclusion.  Whatever the environment and
the priority list, a recipe returned by `find_best_recipe`'s walk has
`deprecated = false`. -/
theorem C2_deprecation_exclusion (env : Env) (app : String) (priority : List String)
    (r : Recipe) (h : findBestAux env app priority = .ok (some r)) :
    r.deprecated = false := by
  induction priority with
  | nil => simp [findBestAux] at h
  | cons t rest ih =>
    simp only [findBestAux] at h
    cases hs : env.search app t with
    | error e => rw [hs] at h; cases h
    | ok recipes =>
      rw [hs] at h
      simp only at h
      cases hf : recipes.filter (fun r => !r.deprecated) with
      | nil => rw [hf] at h; exact ih h
      | cons a as =>
        rw [hf] at h
        simp only [Except.ok.injEq, Option.some.injEq] at h
        have ha : a ∈ recipes.filter (fun r => !r.deprecated) := by
          rw [hf]; exact List.mem_cons_self a as
        have := List.of_mem_filter ha
        subst h
        simpa using this

/-- C3 (counterexample): with two non-deprecated candidates of the chosen
type, `find_best_recipe` returns the first one in catalog order even
though the second carries the strictly greater popularity, refuting
"returns the one with maximal popularity". -/
theorem C3_counterexample :
    find_best_recipe c3env "Foo" = .ok (some c3A) ∧
    c3A.type = "munki" ∧ c3B ∈ c3catalog ∧ c3B.type = "munki" ∧
    c3B.deprecated = false ∧ popularity c3A < popularity c3B ∧ c3A ≠ c3B := by
  decide

/-- C3 (amended): among the non-deprecated candidates of the chosen type,
`find_best_recipe`'s walk returns the one appearing earliest in the input
sequence — popularity is not represented in the parsed Recipe and is
never consulted (only when all candidates of the type share one
popularity value does this coincide with the claimed
maximal-popularity rule). -/
theorem C3_first_of_chosen_type (catalog : List Recipe) (fetch : String → Option String)
    (app t : String) (rest : List String) (r : Recipe)
    (h : findBestAux (catalogEnv catalog fetch) app (t :: rest) = .ok (some r))
    (hex : ∃ c ∈ catalog, c.type = t ∧ c.deprecated = false) :
    ∃ i : Nat, (catalog.filter (fun r => r.type == t))[i]? = some r ∧ r.deprecated = false ∧
      ∀ j : Nat, j < i → ∀ c, (catalog.filter (fun r => r.type == t))[j]? = some c →
        c.deprecated = true := by
  obtain ⟨c, hc, hty, hdep⟩ := hex
  have hmem2 : c ∈ (catalog.filter (fun r => r.type == t)).filter (fun r => !r.deprecated) :=
    List.mem_filter.mpr ⟨List.mem_filter.mpr ⟨hc, by simp [hty]⟩, by simp [hdep]⟩
  have hhead : ((catalog.filter (fun r => r.type == t)).filter
      (fun r => !r.deprecated)).head? = some r := by
    cases hl : (catalog.filter (fun r => r.type == t)).filter (fun r => !r.deprecated) with
    | nil => rw [hl] at hmem2; cases hmem2
    | cons a as =>
      simp only [findBestAux, catalogEnv] at h
      rw [hl] at h
      simp only [Except.ok.injEq, Option.some.injEq] at h
      subst h
      simp
  obtain ⟨i, hi, hr, hprev⟩ := head_filter_first (fun r => !r.deprecated) _ r hhead
  refine ⟨i, hi, by simpa using hr, ?_⟩
  intro j hj cc hcc
  have := hprev j hj cc hcc
  simpa using this

/-- Witness for C1 at the two-candidate catalog: a non-deprecated munki
candidate exists, and the selection returns a munki recipe. -/
theorem C1_witness :
    (∃ r ∈ c3catalog, r.type = "munki" ∧ r.deprecated = false) ∧
    (∃ r, findBestAux (catalogEnv c3catalog (fun _ => none)) "Foo" ["munki", "download"] =
        .ok (some r) ∧ r.type = "munki") :=
  ⟨⟨c3A, by decide⟩,
   C1_type_priority_beats_popularity c3catalog (fun _ => none) "Foo" "munki" ["download"]
     ⟨c3A, by decide⟩⟩

/-- Witness for C2: on the concrete catalog the walk returns `c3A`, and
the theorem yields its non-deprecation. -/
theorem C2_witness :
    findBestAux c3env "Foo" ["munki", "download"] = .ok (some c3A) ∧
    c3A.deprecated = false :=
  ⟨by decide,
   C2_deprecation_exclusion c3env "Foo" ["munki", "download"] c3A (by decide)⟩

/-- Witness for the amended C3: on the concrete catalog the returned
candidate `c3A` sits at a position before which every type-munki
candidate is deprecated (here position 0). -/
theorem C3_witness :
    ∃ i : Nat, (c3catalog.filter (fun r => r.type == "munki"))[i]? = some c3A ∧
      c3A.deprecated = false ∧
      ∀ j : Nat, j < i → ∀ c, (c3catalog.filter (fun r => r.type == "munki"))[j]? = some c →
        c.deprecated = true :=
  C3_first_of_chosen_type c3catalog (fun _ => none) "Foo" "munki" ["download"] c3A
    (by decide) ⟨c3A, by decide⟩

/-- Reading back a path just written yields the written content. -/
theorem readFS_writeText_same (fs : FS) (path content : String) :
    readFS (writeText fs path content) path = some content := by
  induction fs with
  | nil => simp [writeText, readFS]
  | cons kv rest ih =>
    by_cases h : (kv.1 == path) = true
    · simp [writeText, readFS, h]
    · simp only [writeText]
      rw [if_neg (by simpa using h)]
      simp only [readFS]
      rw [if_neg (by simpa using h)]
      exact ih

/-- Writing one path leaves the content of every other path unchanged. -/
theorem readFS_writeText_other (fs : FS) (path q content : String) (hq : q ≠ path) :
    readFS (writeText fs path content) q = readFS fs q := by
  induction fs with
  | nil =>
    simp only [writeText, readFS]
    rw [if_neg (by simpa using fun h => hq (h.symm))]
  | cons kv rest ih =>
    by_cases h : (kv.1 == path) = true
    · have h' : kv.1 = path := by simpa using h
      simp only [writeText, readFS]
      rw [if_pos h]
      simp only [readFS]
      rw [if_neg (by simpa using fun hh => hq (hh.symm)), if_neg (by simp [h', Ne.symm hq])]
    · simp only [writeText]
      rw [if_neg (by simpa using h)]
      simp only [readFS]
      by_cases h2 : (kv.1 == q) = true
      · rw [if_pos h2, if_pos h2]
      · rw [if_neg (by simpa using h2), if_neg (by simpa using h2)]
        exact ih

/-- C8 (counterexample): a download whose target path already holds a
file succeeds and replaces the existing content, refuting "an existing
file's content is never changed by a subsequent download of an
identically-named file". -/
theorem C8_counterexample :
    readFS c8fs c8path = some "old contents" ∧
    download_recipe_file c8env c8fs "u8" c8path = (true, [(c8path, "new contents")]) ∧
    readFS (download_recipe_file c8env c8fs "u8" c8path).2 c8path = some "new contents" ∧
    ("new contents" : String) ≠ "old contents" := by
  decide

/-- C8 (amended): a successful download always writes the fetched content
at the target path, silently replacing any existing identically-named
file (there is no existence check, no skip and no collision log in
`download_recipe_file`); files at all other paths keep their content. -/
theorem C8_overwrite_semantics (env : Env) (fs : FS) (url output_path text : String)
    (hfetch : env.fetch (rawUrl url) = some text) :
    (download_recipe_file env fs url output_path).1 = true ∧
    readFS (download_recipe_file env fs url output_path).2 output_path = some text ∧
    ∀ q, q ≠ output_path →
      readFS (download_recipe_file env fs url output_path).2 q = readFS fs q := by
  refine ⟨?_, ?_, ?_⟩
  · simp [download_recipe_file, hfetch]
  · simp only [download_recipe_file, hfetch]
    exact readFS_writeText_same fs output_path text
  · intro q hqne
    simp only [download_recipe_file, hfetch]
    exact readFS_writeText_other fs output_path q text hqne

/-- Witness for the amended C8 at the collision fixture: the download
reports success, the path now holds the new content, and an unrelated
path is untouched. -/
theorem C8_witness :
    (download_recipe_file c8env c8fs "u8" c8path).1 = true ∧
    readFS (download_recipe_file c8env c8fs "u8" c8path).2 c8path = some "new contents" ∧
    readFS (download_recipe_file c8env c8fs "u8" c8path).2 "elsewhere" = readFS c8fs "elsewhere" :=
  ⟨(C8_overwrite_semantics c8env c8fs "u8" c8path "new contents" (by decide)).1,
   (C8_overwrite_semantics c8env c8fs "u8" c8path "new contents" (by decide)).2.1,
   (C8_overwrite_semantics c8env c8fs "u8" c8path "new contents" (by decide)).2.2
     "elsewhere" (by decide)⟩

/-- Files accumulated by the parent loop extend the incoming accumulator,
and every added file is the first catalog hit of one of the walked parent
names. -/
theorem downloadParentsAux_files (env : Env) (output_dir : String) :
    ∀ (parents files paths : List String) (fs : FS)
      (files' paths' : List String) (fs' : FS),
      downloadParentsAux env output_dir parents (files, paths, fs) =
        (.ok (files', paths'), fs') →
      ∃ extra, files' = files ++ extra ∧
        ∀ f ∈ extra, ∃ pname, pname ∈ parents ∧ ∃ p prest,
          env.search pname "" = .ok (p :: prest) ∧ f = p.recipe_file := by
  intro parents
  induction parents with
  | nil =>
    intro files paths fs files' paths' fs' h
    simp only [downloadParentsAux, Prod.mk.injEq, Except.ok.injEq] at h
    refine ⟨[], by simp [h.1.1], by simp⟩
  | cons pname prest ih =>
    intro files paths fs files' paths' fs' h
    simp only [downloadParentsAux] at h
    cases hs : env.search pname "" with
    | error e => rw [hs] at h; simp at h
    | ok presults =>
      rw [hs] at h
      cases presults with
      | nil =>
        simp only at h
        obtain ⟨extra, hfe, hprop⟩ := ih _ _ _ _ _ _ h
        refine ⟨extra, hfe, fun f hf => ?_⟩
        obtain ⟨pn, hpn, hp⟩ := hprop f hf
        exact ⟨pn, List.mem_cons_of_mem _ hpn, hp⟩
      | cons parent pr =>
        simp only at h
        cases hd : download_recipe_file env fs parent.recipe_file_url
            (recipePath output_dir parent) with
        | mk okb fs1 =>
          rw [hd] at h
          cases okb with
          | true =>
            simp only at h
            obtain ⟨extra, hfe, hprop⟩ := ih _ _ _ _ _ _ h
            refine ⟨parent.recipe_file :: extra, ?_, ?_⟩
            · rw [hfe]; simp
            · intro f hf
              rcases List.mem_cons.mp hf with rfl | hf2
              · exact ⟨pname, List.mem_cons_self _ _, parent, pr, hs, rfl⟩
              · obtain ⟨pn, hpn, hp⟩ := hprop f hf2
                exact ⟨pn, List.mem_cons_of_mem _ hpn, hp⟩
          | false =>
            simp only at h
            obtain ⟨extra, hfe, hprop⟩ := ih _ _ _ _ _ _ h
            refine ⟨extra, hfe, fun f hf => ?_⟩
            obtain ⟨pn, hpn, hp⟩ := hprop f hf
            exact ⟨pn, List.mem_cons_of_mem _ hpn, hp⟩

/-- The parent loop adds at most one file per walked parent name. -/
theorem downloadParentsAux_length (env : Env) (output_dir : String) :
    ∀ (parents files paths : List String) (fs : FS)
      (files' paths' : List String) (fs' : FS),
      downloadParentsAux env output_dir parents (files, paths, fs) =
        (.ok (files', paths'), fs') →
      files'.length ≤ files.length + parents.length := by
  intro parents
  induction parents with
  | nil =>
    intro files paths fs files' paths' fs' h
    simp only [downloadParentsAux, Prod.mk.injEq, Except.ok.injEq] at h
    simp [← h.1.1]
  | cons pname prest ih =>
    intro files paths fs files' paths' fs' h
    simp only [downloadParentsAux] at h
    cases hs : env.search pname "" with
    | error e => rw [hs] at h; simp at h
    | ok presults =>
      rw [hs] at h
      cases presults with
      | nil =>
        simp only at h
        have := ih _ _ _ _ _ _ h
        simp only [List.length_cons]
        omega
      | cons parent pr =>
        simp only at h
        cases hd : download_recipe_file env fs parent.recipe_file_url
            (recipePath output_dir parent) with
        | mk okb fs1 =>
          rw [hd] at h
          cases okb with
          | true =>
            simp only at h
            have := ih _ _ _ _ _ _ h
            simp only [List.length_append, List.length_cons, List.length_nil] at this ⊢
            omega
          | false =>
            simp only at h
            have := ih _ _ _ _ _ _ h
            simp only [List.length_cons]
            omega

/-- The two independent regex searches of `get_parent_recipes` contribute
at most one entry each. -/
theorem get_parent_recipes_length_le (content : String) :
    (get_parent_recipes content).length ≤ 2 := by
  simp only [get_parent_recipes]
  cases hp : searchFirst plistMatchAt content.data <;>
    cases hy : searchFirst yamlMatchAt content.data <;> simp

/-- C6 (counterexample): the chain download fetches the root and its
direct parent only.  Here the parent's fetched file names a grandparent
that is itself resolvable and fetchable, yet the returned chain is
exactly root plus direct parent — the walk never recurses into the
grandparent, refuting "recursively resolves each ancestor until a recipe
with no parent reference is reached". -/
theorem C6_counterexample :
    (download_recipe_chain c6env "out" emptyFS c6R).1.map Prod.fst =
      .ok ["R.munki.recipe", "P.munki.recipe"] ∧
    c6env.fetch (rawUrl c6P.recipe_file_url) = some c6contentP ∧
    get_parent_recipes c6contentP = ["G.munki"] ∧
    c6env.search "G.munki" "" = .ok [c6G] ∧
    c6env.fetch (rawUrl c6G.recipe_file_url) = some "terminal recipe, no parent" ∧
    c6G.recipe_file = "G.munki.recipe" ∧
    "G.munki.recipe" ∉ ["R.munki.recipe", "P.munki.recipe"] := by
  refine ⟨rfl, rfl, by decide, rfl, rfl, rfl, by decide⟩

/-- C6 (amended): when the root download succeeds, the returned chain
starts with the root's file and every further file is the first catalog
hit of a parent name extracted from the root's own content — one level of
ancestry only; parents of parents are never resolved. -/
theorem C6_direct_parents_only (env : Env) (output_dir : String) (fs : FS)
    (recipe : Recipe) (text : String)
    (hfetch : env.fetch (rawUrl recipe.recipe_file_url) = some text) :
    ∀ files paths fs',
      download_recipe_chain env output_dir fs recipe = (.ok (files, paths), fs') →
      files.head? = some recipe.recipe_file ∧
      ∀ f ∈ files.tail, ∃ pname, pname ∈ get_parent_recipes text ∧ ∃ p prest,
        env.search pname "" = .ok (p :: prest) ∧ f = p.recipe_file := by
  intro files paths fs' h
  simp only [download_recipe_chain, download_recipe_file, hfetch] at h
  rw [readFS_writeText_same] at h
  simp only [Option.getD_some] at h
  obtain ⟨extra, hfe, hprop⟩ := downloadParentsAux_files env output_dir _ _ _ _ _ _ _ h
  subst hfe
  refine ⟨by simp, ?_⟩
  intro f hf
  simp only [List.singleton_append, List.tail_cons] at hf
  exact hprop f hf

/-- Witness for the amended C6: a root with no parent reference yields
the single-file chain headed by the root's file. -/
theorem C6_witness :
    (["Foo.munki.recipe"] : List String).head? = some c3A.recipe_file ∧
    ∀ f ∈ (["Foo.munki.recipe"] : List String).tail,
      ∃ pname, pname ∈ get_parent_recipes "plain" ∧ ∃ p prest,
        wEnvNP.search pname "" = .ok (p :: prest) ∧ f = p.recipe_file :=
  C6_direct_parents_only wEnvNP "out" emptyFS c3A "plain" rfl
    ["Foo.munki.recipe"]
    ["com.github.autopkg.repoA/Foo.munki.recipe/Foo.munki.recipe"]
    [("out/com.github.autopkg.repoA/Foo.munki.recipe/Foo.munki.recipe", "plain")]
    (by decide)

/-- C7 (counterexample): a self-cycle in the parent graph.  The root's
file names the root itself as parent; the walk terminates but fetches the
root a second time, so the returned chain repeats an identifier, refuting
"the returned sequence contains no duplicate identifiers" (there is no
visited-set guard in the source). -/
theorem C7_counterexample :
    (download_recipe_chain c7env "out" emptyFS c7R).1.map Prod.fst =
      .ok ["Foo.munki.recipe", "Foo.munki.recipe"] ∧
    get_parent_recipes c7content = ["Foo.munki"] ∧
    c7env.search "Foo.munki" "" = .ok [c7R] ∧
    ¬ (["Foo.munki.recipe", "Foo.munki.recipe"] : List String).Nodup := by
  refine ⟨rfl, by decide, rfl, by decide⟩

/-- C7 (amended): the walk always terminates — it is depth-bounded at one
level, downloading at most the root plus one file per extracted parent
reference, hence at most three files in total — but the returned chain
can repeat an identifier, as the counterexample shows. -/
theorem C7_chain_bounded (env : Env) (output_dir : String) (fs : FS) (recipe : Recipe)
    (files paths : List String) (fs' : FS)
    (h : download_recipe_chain env output_dir fs recipe = (.ok (files, paths), fs')) :
    files.length ≤ 3 := by
  simp only [download_recipe_chain] at h
  cases hd : download_recipe_file env fs recipe.recipe_file_url
      (recipePath output_dir recipe) with
  | mk okb fs1 =>
    rw [hd] at h
    cases okb with
    | false =>
      simp only [Prod.mk.injEq, Except.ok.injEq] at h
      simp [← h.1.1]
    | true =>
      simp only at h
      have hlen := downloadParentsAux_length env output_dir
        (get_parent_recipes ((readFS fs1 (recipePath output_dir recipe)).getD ""))
        [recipe.recipe_file] [relPath recipe] fs1 files paths fs' h
      have hp := get_parent_recipes_length_le
        ((readFS fs1 (recipePath output_dir recipe)).getD "")
      simp only [List.length_cons, List.length_nil] at hlen
      omega

/-- Witness for the amended C7: a failed root download gives the empty
chain, within the bound. -/
theorem C7_witness :
    download_recipe_chain c8env "out" emptyFS c3A = (.ok ([], []), emptyFS) ∧
    ([] : List String).length ≤ 3 :=
  ⟨by decide, C7_chain_bounded c8env "out" emptyFS c3A [] [] emptyFS (by decide)⟩

/-- C9 (counterexample): a file content matching both the plist pattern
and the YAML pattern makes `get_parent_recipes` return two entries,
refuting "its result list never contains two or more entries". -/
theorem C9_counterexample :
    get_parent_recipes c9content = ["A", "B"] ∧
    2 ≤ (get_parent_recipes c9content).length := by
  refine ⟨by decide, by decide⟩

/-- C9 (amended): `get_parent_recipes` extracts at most two parent
references — at most one from the plist pattern and at most one from the
YAML pattern — for every file content. -/
theorem C9_at_most_two_parents (content : String) :
    (get_parent_recipes content).length ≤ 2 :=
  get_parent_recipes_length_le content

/-- Invariant of the retry loop: starting with `attempt + fuel =
MAX_RETRIES` and at least one remaining iteration, the loop makes at most
MAX_RETRIES attempts, every recorded sleep equals RETRY_DELAY, and there
is exactly one fewer sleep than attempts made. -/
theorem searchRetryAux_spec (tryGet : Nat → Except String String)
    (parse : String → List Recipe) :
    ∀ (fuel attempt : Nat) (sleeps : List Nat),
      attempt + fuel = MAX_RETRIES → 1 ≤ fuel → (∀ d ∈ sleeps, d = RETRY_DELAY) →
      (searchRetryAux tryGet parse fuel attempt sleeps).2.1 ≤ MAX_RETRIES ∧
      (∀ d ∈ (searchRetryAux tryGet parse fuel attempt sleeps).2.2, d = RETRY_DELAY) ∧
      (searchRetryAux tryGet parse fuel attempt sleeps).2.2.length + attempt + 1 =
        (searchRetryAux tryGet parse fuel attempt sleeps).2.1 + sleeps.length := by
  intro fuel
  induction fuel with
  | zero => intro attempt sleeps h1 h2 h3; omega
  | succ f ih =>
    intro attempt sleeps h1 h2 h3
    cases hg : tryGet attempt with
    | ok html =>
      simp only [searchRetryAux, hg]
      refine ⟨by omega, h3, by omega⟩
    | error e =>
      simp only [searchRetryAux, hg]
      by_cases hlt : attempt < MAX_RETRIES - 1
      · rw [if_pos hlt]
        have h3' : ∀ d ∈ sleeps ++ [RETRY_DELAY], d = RETRY_DELAY := by
          intro d hd
          rcases List.mem_append.mp hd with hd | hd
          · exact h3 d hd
          · simpa using hd
        have hf : 1 ≤ f := by
          simp only [MAX_RETRIES] at h1 hlt ⊢
          omega
        obtain ⟨g1, g2, g3⟩ := ih (attempt + 1) (sleeps ++ [RETRY_DELAY]) (by omega) hf h3'
        refine ⟨g1, g2, ?_⟩
        simp only [List.length_append, List.length_cons, List.length_nil] at g3 ⊢
        omega
      · rw [if_neg hlt]
        simp only [MAX_RETRIES] at h1 hlt ⊢
        refine ⟨?_, h3, ?_⟩
        · show attempt + 1 ≤ 3
          omega
        · show sleeps.length + attempt + 1 = (attempt + 1) + sleeps.length
          omega

/-- C5 (confirmed): retry bound and graceful exhaustion.  The search
makes at most MAX_RETRIES = 3 attempts, every inter-attempt delay is
RETRY_DELAY = 2, there is exactly one fewer delay than attempts, and when
every attempt raises a requests exception the call returns the empty
list after 3 attempts and 2 sleeps of 2 — a value, not an exception. -/
theorem C5_retry_bound_and_exhaustion (tryGet : Nat → Except String String)
    (parse : String → List Recipe) :
    (search_autopkg_web tryGet parse).2.1 ≤ MAX_RETRIES ∧
    (∀ d ∈ (search_autopkg_web tryGet parse).2.2, d = RETRY_DELAY) ∧
    (search_autopkg_web tryGet parse).2.2.length + 1 = (search_autopkg_web tryGet parse).2.1 ∧
    ((∀ i : Nat, i < MAX_RETRIES → ∃ e, tryGet i = .error e) →
      search_autopkg_web tryGet parse = ([], MAX_RETRIES, [RETRY_DELAY, RETRY_DELAY])) := by
  obtain ⟨g1, g2, g3⟩ := searchRetryAux_spec tryGet parse MAX_RETRIES 0 []
    (by omega) (by decide) (by simp)
  refine ⟨g1, g2, by simpa using g3, ?_⟩
  intro hall
  obtain ⟨e0, h0⟩ := hall 0 (by decide)
  obtain ⟨e1, h1⟩ := hall 1 (by decide)
  obtain ⟨e2, h2⟩ := hall 2 (by decide)
  simp [search_autopkg_web, searchRetryAux, MAX_RETRIES, RETRY_DELAY, h0, h1, h2]

/-- Witness for C5: with every attempt failing, the call evaluates to the
empty result after three attempts and two fixed delays. -/
theorem C5_witness :
    search_autopkg_web tg5 p5 = ([], MAX_RETRIES, [RETRY_DELAY, RETRY_DELAY]) :=
  (C5_retry_bound_and_exhaustion tg5 p5).2.2.2 (fun _ _ => ⟨"connection reset", rfl⟩)

/-- The result-or-error component of the parent loop does not depend on
the incoming file tree (downloads depend only on the environment). -/
theorem downloadParentsAux_fst_indep (env : Env) (output_dir : String) :
    ∀ (parents files paths : List String) (fs fsB : FS),
      (downloadParentsAux env output_dir parents (files, paths, fs)).1 =
      (downloadParentsAux env output_dir parents (files, paths, fsB)).1 := by
  intro parents
  induction parents with
  | nil => intro files paths fs fsB; simp [downloadParentsAux]
  | cons pname prest ih =>
    intro files paths fs fsB
    simp only [downloadParentsAux]
    cases hs : env.search pname "" with
    | error e => simp
    | ok presults =>
      cases presults with
      | nil => exact ih _ _ _ _
      | cons parent pr =>
        simp only [download_recipe_file]
        cases hf : env.fetch (rawUrl parent.recipe_file_url) with
        | some text => exact ih _ _ _ _
        | none => exact ih _ _ _ _

/-- The result-or-error component of the chain download does not depend
on the incoming file tree. -/
theorem download_recipe_chain_fst_indep (env : Env) (output_dir : String) (recipe : Recipe)
    (fs fsB : FS) :
    (download_recipe_chain env output_dir fs recipe).1 =
    (download_recipe_chain env output_dir fsB recipe).1 := by
  simp only [download_recipe_chain, download_recipe_file]
  cases hf : env.fetch (rawUrl recipe.recipe_file_url) with
  | none => simp
  | some text =>
    simp only [readFS_writeText_same, Option.getD_some]
    exact downloadParentsAux_fst_indep env output_dir _ _ _ _ _

/-- The result row of one application does not depend on the statistics
or the file tree accumulated by the earlier applications. -/
theorem process_application_fst_indep (env : Env) (output_dir : String) (app : String)
    (s sB : Stats) (fs fsB : FS) :
    (process_application env output_dir app s fs).1 =
    (process_application env output_dir app sB fsB).1 := by
  simp only [process_application]
  by_cases ha : app = ""
  · simp [ha]
  · rw [if_neg ha, if_neg ha]
    cases find_best_recipe env app with
    | error e => simp
    | ok o =>
      cases o with
      | none => simp
      | some recipe =>
        dsimp only
        have hc := download_recipe_chain_fst_indep env output_dir recipe fs fsB
        cases h1 : download_recipe_chain env output_dir fs recipe with
        | mk r1 f1 =>
          cases h2 : download_recipe_chain env output_dir fsB recipe with
          | mk r2 f2 =>
            rw [h1, h2] at hc
            simp only at hc
            subst hc
            cases r1 with
            | error e => simp
            | ok pr =>
              cases pr with
              | mk dfiles lpaths => simp

/-- C4 (confirmed): batch resilience.  `process_applications` returns
exactly one result row per input application, in input order (the row of
the i-th input is the row its own processing yields, independent of the
other applications), and an application on which the search raises an
unexpected exception yields the error row carrying that exception's
detail while the batch continues. -/
theorem C4_batch_resilience (env : Env) (output_dir : String) (apps : List String)
    (stats : Stats) (fs : FS) :
    ((process_applications env output_dir apps stats fs).1.length = apps.length) ∧
    (∀ i : Nat, ∀ app : String, apps[i]? = some app →
      (process_applications env output_dir apps stats fs).1[i]? =
        some ((process_application env output_dir app initStats emptyFS).1)) ∧
    (∀ app e, app ≠ "" → find_best_recipe env app = .error e →
      (process_application env output_dir app initStats emptyFS).1 = errorResult app e) := by
  refine ⟨?_, ?_, ?_⟩
  · induction apps generalizing stats fs with
    | nil => simp [process_applications]
    | cons a rest ih => simp [process_applications, ih]
  · induction apps generalizing stats fs with
    | nil => intro i app h; simp at h
    | cons a rest ih =>
      intro i app h
      cases i with
      | zero =>
        simp only [List.getElem?_cons_zero, Option.some.injEq] at h
        subst h
        simp only [process_applications, List.getElem?_cons_zero, Option.some.injEq]
        exact process_application_fst_indep env output_dir _ stats initStats fs emptyFS
      | succ k =>
        simp only [List.getElem?_cons_succ] at h
        simp only [process_applications, List.getElem?_cons_succ]
        exact ih _ _ k app h
  · intro app e ha he
    simp [process_application, ha, he]

/-- Witness for C4 at a four-application batch in which one application
raises: four rows come back, the third row is the error row of "Boom"
with its exception detail. -/
theorem C4_witness :
    (process_applications env4 "out" ["Good", "", "Boom", "Nada"] initStats emptyFS).1.length = 4 ∧
    (process_applications env4 "out" ["Good", "", "Boom", "Nada"] initStats emptyFS).1[2]? =
      some ((process_application env4 "out" "Boom" initStats emptyFS).1) ∧
    (process_application env4 "out" "Boom" initStats emptyFS).1 = errorResult "Boom" "kaboom" :=
  ⟨(C4_batch_resilience env4 "out" ["Good", "", "Boom", "Nada"] initStats emptyFS).1,
   (C4_batch_resilience env4 "out" ["Good", "", "Boom", "Nada"] initStats emptyFS).2.1
     2 "Boom" (by decide),
   (C4_batch_resilience env4 "out" ["Good", "", "Boom", "Nada"] initStats emptyFS).2.2
     "Boom" "kaboom" (by decide) (by decide)⟩

/-- Every intermediate statistics checkpoint of one application, and the
state it leaves behind, preserve the counter invariant. -/
theorem appStatsTrace_inv (env : Env) (output_dir : String) (app : String)
    (stats : Stats) (fs : FS) (hs : statsInv stats) :
    (∀ s ∈ appStatsTrace env output_dir app stats fs, statsInv s) ∧
    statsInv (process_application env output_dir app stats fs).2.1 := by
  obtain ⟨h1, h2⟩ := hs
  by_cases ha : app = ""
  · constructor
    · intro s hmem
      simp [appStatsTrace, ha] at hmem
    · simp only [process_application, if_pos ha]
      exact ⟨h1, h2⟩
  · simp only [appStatsTrace, process_application, if_neg ha]
    cases find_best_recipe env app with
    | error e =>
      dsimp only
      constructor
      · intro s hmem
        simp only [List.mem_cons, List.not_mem_nil, or_false] at hmem
        rcases hmem with rfl | rfl
        all_goals simp [statsInv]; omega
      · simp [statsInv]; omega
    | ok o =>
      cases o with
      | none =>
        dsimp only
        constructor
        · intro s hmem
          simp only [List.mem_cons, List.not_mem_nil, or_false] at hmem
          rcases hmem with rfl
          simp [statsInv]; omega
        · simp [statsInv]; omega
      | some recipe =>
        dsimp only
        cases hch : download_recipe_chain env output_dir fs recipe with
        | mk rr ff =>
          cases rr with
          | error e =>
            dsimp only
            constructor
            · intro s hmem
              simp only [List.mem_cons, List.not_mem_nil, or_false] at hmem
              rcases hmem with rfl | rfl | rfl
              all_goals simp [statsInv]; omega
            · simp [statsInv]; omega
          | ok pr =>
            cases pr with
            | mk dfiles lpaths =>
              dsimp only
              by_cases hd : dfiles.isEmpty
              · rw [if_pos hd, if_pos hd]
                constructor
                · intro s hmem
                  simp only [List.mem_cons, List.not_mem_nil, or_false] at hmem
                  rcases hmem with rfl | rfl
                  all_goals simp [statsInv]; omega
                · simp [statsInv]; omega
              · rw [if_neg hd, if_neg hd]
                constructor
                · intro s hmem
                  simp only [List.mem_cons, List.not_mem_nil, or_false] at hmem
                  rcases hmem with rfl | rfl | rfl
                  all_goals simp [statsInv]; omega
                · simp [statsInv]; omega

/-- The counter invariant holds at every checkpoint of a batch run and in
the final statistics, whatever invariant-satisfying state it starts
from. -/
theorem batchStatsTrace_inv (env : Env) (output_dir : String) :
    ∀ (apps : List String) (stats : Stats) (fs : FS), statsInv stats →
      (∀ s ∈ batchStatsTrace env output_dir apps stats fs, statsInv s) ∧
      statsInv (process_applications env output_dir apps stats fs).2.1 := by
  intro apps
  induction apps with
  | nil =>
    intro stats fs h
    constructor
    · intro s hmem; simp [batchStatsTrace] at hmem
    · simpa [process_applications] using h
  | cons a rest ih =>
    intro stats fs h
    have happ := appStatsTrace_inv env output_dir a stats fs h
    have hrest := ih (process_application env output_dir a stats fs).2.1
      (process_application env output_dir a stats fs).2.2 happ.2
    constructor
    · intro s hmem
      simp only [batchStatsTrace, List.mem_append] at hmem
      rcases hmem with hmem | hmem
      · exact happ.1 s hmem
      · exact hrest.1 s hmem
    · simpa only [process_applications] using hrest.2

/-- C10 (confirmed): statistics counter invariant.  Starting from the
all-zero statistics, `downloaded ≤ found ≤ total` holds at every
mutation checkpoint during `process_applications` (after each `total`,
`found`, `downloaded` and `errors` bump of every application) and in the
final statistics: `total` is bumped once per named application before
classification, `found` only after a recipe is selected, `downloaded`
only after the chain persisted at least one file. -/
theorem C10_stats_invariant (env : Env) (output_dir : String) (apps : List String) :
    statsInv initStats ∧
    (∀ s ∈ batchStatsTrace env output_dir apps initStats emptyFS, statsInv s) ∧
    statsInv (process_applications env output_dir apps initStats emptyFS).2.1 := by
  refine ⟨by decide, ?_, ?_⟩
  · exact (batchStatsTrace_inv env output_dir apps initStats emptyFS (by decide)).1
  · exact (batchStatsTrace_inv env output_dir apps initStats emptyFS (by decide)).2

/-- Witness for C10 at the four-application batch with one found-and-
downloaded row, one unnamed row and one raising row: the final statistics
satisfy the invariant, as does the checkpoint after the first
application's `found` bump. -/
theorem C10_witness :
    statsInv (process_applications env4 "out" ["Good", "", "Boom", "Nada"]
      initStats emptyFS).2.1 ∧
    statsInv ⟨1, 1, 0, 0⟩ :=
  ⟨(C10_stats_invariant env4 "out" ["Good", "", "Boom", "Nada"]).2.2,
   (C10_stats_invariant env4 "out" ["Good", "", "Boom", "Nada"]).2.1 ⟨1, 1, 0, 0⟩ (by decide)⟩

end AutoPkg
